import Mathlib

/-!
# VibeWatch recommendation pipeline — verification development

Shallow embedding of the post-retrieval part of `VibeWatchRecommender.recommend`
(`src/generator.py`) together with the prompt construction of `src/prompting.py`
and the candidate metadata records produced by the catalog build
(`src/scripts/build_embeddings.py`, `create_documents`).

The generative-model call and the FAISS retrieval are external collaborators;
`recommend` below is therefore parameterised by the retrieved candidate list
(`docs`, the value of `retriever.retrieve(user_query, k)`) and by the raw model
response text (`content0`, the value of `response.content`).  Everything after
those two inputs is translated statement by statement from the source.

Python exceptions are modelled with `Except String`: a `.error` value marks the
point where the Python code would raise.
-/

set_option autoImplicit false

namespace VibeWatch

/-- A JSON value as produced by Python `json.loads`.  Numbers keep their source
lexeme verbatim (`num "1"`, `num "1.5"`, `num "NaN"`); no code path in the
embedded program inspects a numeric value, so no arithmetic reading is needed.
Objects are association lists with unique keys (duplicate keys in the input are
collapsed last-wins at parse time, like Python dicts). -/
inductive Json where
  | null
  | bool (b : Bool)
  | num (lit : String)
  | str (s : String)
  | arr (xs : List Json)
  | obj (kvs : List (String × Json))
  deriving Repr, Inhabited

/-- Key lookup in a Python dict modelled as an association list (keys unique). -/
def jLookup : List (String × Json) → String → Option Json
  | [], _ => none
  | (k, v) :: rest, key => if k = key then some v else jLookup rest key

/-- Python dict assignment `d[key] = val`: overwrite in place when the key is
present (keeping its position), append otherwise. -/
def insertKV : List (String × Json) → String → Json → List (String × Json)
  | [], key, val => [(key, val)]
  | (k, v) :: rest, key, val =>
      if k = key then (k, val) :: rest else (k, v) :: insertKV rest key val

/-! ## A JSON parser modelling Python `json.loads`

`json.loads` accepts a single JSON value with optional surrounding whitespace
and rejects trailing data; by default it also accepts the non-standard
constants `NaN`, `Infinity` and `-Infinity`, and rejects raw control
characters inside strings. -/

def isJsonWs (c : Char) : Bool :=
  c == ' ' || c == '\t' || c == '\n' || c == '\r'

def skipWs (cs : List Char) : List Char := cs.dropWhile isJsonWs

def isHexDigitCh (c : Char) : Bool :=
  c.isDigit || ('a' ≤ c && c ≤ 'f') || ('A' ≤ c && c ≤ 'F')

def hexVal (c : Char) : Nat :=
  if c.isDigit then c.toNat - '0'.toNat
  else if 'a' ≤ c && c ≤ 'f' then c.toNat - 'a'.toNat + 10
  else c.toNat - 'A'.toNat + 10

/-- String body parser, entered after the opening quote; `fuel` bounds the
number of remaining characters.  Handles the JSON escapes and rejects raw
control characters (json.loads strict mode default). -/
def parseStrAux : Nat → List Char → List Char → Option (String × List Char)
  | 0, _, _ => none
  | _ + 1, _, [] => none
  | fuel + 1, acc, c :: rest =>
    if c == '"' then some (String.mk acc.reverse, rest)
    else if c == '\\' then
      match rest with
      | [] => none
      | e :: rest2 =>
        if e == '"' then parseStrAux fuel ('"' :: acc) rest2
        else if e == '\\' then parseStrAux fuel ('\\' :: acc) rest2
        else if e == '/' then parseStrAux fuel ('/' :: acc) rest2
        else if e == 'b' then parseStrAux fuel ('\x08' :: acc) rest2
        else if e == 'f' then parseStrAux fuel ('\x0c' :: acc) rest2
        else if e == 'n' then parseStrAux fuel ('\n' :: acc) rest2
        else if e == 'r' then parseStrAux fuel ('\r' :: acc) rest2
        else if e == 't' then parseStrAux fuel ('\t' :: acc) rest2
        else if e == 'u' then
          match rest2 with
          | h1 :: h2 :: h3 :: h4 :: rest3 =>
            if isHexDigitCh h1 && isHexDigitCh h2 && isHexDigitCh h3 && isHexDigitCh h4 then
              parseStrAux fuel
                (Char.ofNat (((hexVal h1 * 16 + hexVal h2) * 16 + hexVal h3) * 16 + hexVal h4)
                  :: acc) rest3
            else none
          | _ => none
        else none
    else if c.toNat < 32 then none
    else parseStrAux fuel (c :: acc) rest

/-- Optional fractional part of a JSON number (returns the lexeme). -/
def parseFrac (cs : List Char) : Option (List Char × List Char) :=
  match cs with
  | '.' :: t =>
    match t.takeWhile Char.isDigit with
    | [] => none
    | ds => some ('.' :: ds, t.dropWhile Char.isDigit)
  | _ => some ([], cs)

/-- Optional exponent part of a JSON number (returns the lexeme). -/
def parseExp (cs : List Char) : Option (List Char × List Char) :=
  match cs with
  | c :: t =>
    if c == 'e' || c == 'E' then
      match t with
      | s :: t2 =>
        if s == '+' || s == '-' then
          match t2.takeWhile Char.isDigit with
          | [] => none
          | ds => some (c :: s :: ds, t2.dropWhile Char.isDigit)
        else
          match t.takeWhile Char.isDigit with
          | [] => none
          | ds => some (c :: ds, t.dropWhile Char.isDigit)
      | [] => none
    else some ([], cs)
  | [] => some ([], [])

/-- JSON number lexer (grammar: `-? (0 | [1-9][0-9]*) frac? exp?`). -/
def parseNumber (cs : List Char) : Option (Json × List Char) :=
  match cs with
  | '-' :: cs1 =>
    match parseNumberBody cs1 with
    | some (lit, rest) => some (Json.num ("-" ++ lit), rest)
    | none => none
  | _ =>
    match parseNumberBody cs with
    | some (lit, rest) => some (Json.num lit, rest)
    | none => none
where
  parseNumberBody (cs1 : List Char) : Option (String × List Char) :=
    match cs1.takeWhile Char.isDigit with
    | [] => none
    | ds =>
      if ds.length > 1 && ds.head? == some '0' then none
      else
        match parseFrac (cs1.dropWhile Char.isDigit) with
        | none => none
        | some (fr, cs3) =>
          match parseExp cs3 with
          | none => none
          | some (ex, cs4) =>
            some (String.mk ds ++ String.mk fr ++ String.mk ex, cs4)

/-- If `cs` starts with `lit`, return the remainder. -/
def stripLit : List Char → List Char → Option (List Char)
  | [], rest => some rest
  | _ :: _, [] => none
  | l :: ls, c :: rest => if c == l then stripLit ls rest else none

mutual

/-- Parse one JSON value (after skipping leading whitespace). -/
def parseValue : Nat → List Char → Option (Json × List Char)
  | 0, _ => none
  | fuel + 1, cs0 =>
    match skipWs cs0 with
    | [] => none
    | c :: rest =>
      if c == '"' then
        match parseStrAux (rest.length + 1) [] rest with
        | some (s, r) => some (Json.str s, r)
        | none => none
      else if c == '[' then
        match skipWs rest with
        | ']' :: r2 => some (Json.arr [], r2)
        | r2 =>
          match parseValue fuel r2 with
          | none => none
          | some (v, r3) => parseArrTail fuel [v] r3
      else if c == '\x7b' then
        match skipWs rest with
        | '\x7d' :: r2 => some (Json.obj [], r2)
        | r2 => parseObjMember fuel [] r2
      else if c == 't' then
        match stripLit ['r', 'u', 'e'] rest with
        | some r => some (Json.bool true, r)
        | none => none
      else if c == 'f' then
        match stripLit ['a', 'l', 's', 'e'] rest with
        | some r => some (Json.bool false, r)
        | none => none
      else if c == 'n' then
        match stripLit ['u', 'l', 'l'] rest with
        | some r => some (Json.null, r)
        | none => none
      else if c == 'N' then
        match stripLit ['a', 'N'] rest with
        | some r => some (Json.num "NaN", r)
        | none => none
      else if c == 'I' then
        match stripLit ['n', 'f', 'i', 'n', 'i', 't', 'y'] rest with
        | some r => some (Json.num "Infinity", r)
        | none => none
      else if c == '-' then
        match stripLit ['I', 'n', 'f', 'i', 'n', 'i', 't', 'y'] rest with
        | some r => some (Json.num "-Infinity", r)
        | none => parseNumber (c :: rest)
      else if c.isDigit then parseNumber (c :: rest)
      else none

/-- After the elements in `acc` (reversed): expect `]` or `, value`. -/
def parseArrTail : Nat → List Json → List Char → Option (Json × List Char)
  | 0, _, _ => none
  | fuel + 1, acc, cs0 =>
    match skipWs cs0 with
    | ']' :: r => some (Json.arr acc.reverse, r)
    | ',' :: r =>
      match parseValue fuel r with
      | none => none
      | some (v, r2) => parseArrTail fuel (v :: acc) r2
    | _ => none

/-- Parse one `"key": value` object member, then the object tail.  Members are
accumulated with `insertKV`, giving Python-dict last-wins duplicate handling. -/
def parseObjMember : Nat → List (String × Json) → List Char → Option (Json × List Char)
  | 0, _, _ => none
  | fuel + 1, acc, cs0 =>
    match skipWs cs0 with
    | '"' :: r =>
      match parseStrAux (r.length + 1) [] r with
      | none => none
      | some (k, r2) =>
        match skipWs r2 with
        | ':' :: r3 =>
          match parseValue fuel r3 with
          | none => none
          | some (v, r4) => parseObjTail fuel (insertKV acc k v) r4
        | _ => none
    | _ => none

/-- After a parsed object member: expect `\x7d` or `, member`. -/
def parseObjTail : Nat → List (String × Json) → List Char → Option (Json × List Char)
  | 0, _, _ => none
  | fuel + 1, acc, cs0 =>
    match skipWs cs0 with
    | '\x7d' :: r => some (Json.obj acc, r)
    | ',' :: r => parseObjMember fuel acc r
    | _ => none

end

/-- Python `json.loads`: one JSON document, whitespace allowed around it,
trailing non-whitespace rejected.  Returns `none` where Python raises
`json.JSONDecodeError` (the only exception `json.loads` raises on a `str`). -/
def parseJson (s : String) : Option Json :=
  match parseValue (2 * s.length + 2) s.data with
  | some (v, rest) => if (skipWs rest).isEmpty then some v else none
  | none => none

/-! ## Candidate metadata

`retriever.retrieve` returns `doc.metadata` dicts.  The metadata dict of every
indexed item is built in `create_documents` (`src/scripts/build_embeddings.py`)
with keys, in insertion order: `id`, `title`, `genres`, `overview`, `poster`;
`title`, `genres`, `overview` are strings, `id` an integer and `poster` a
string URL or `None`. -/
structure ItemDoc where
  id : Int
  title : String
  genres : String
  overview : String
  poster : Option String
  deriving Repr, DecidableEq

/-- The `poster` metadata value as a Python/JSON value (`None` ↦ `null`). -/
def optJson : Option String → Json
  | none => Json.null
  | some s => Json.str s

/-! ## String helpers (Python semantics) -/

/-- `startsWithL hay needle`: `hay` begins with `needle`. -/
def startsWithL : List Char → List Char → Bool
  | _, [] => true
  | [], _ :: _ => false
  | c :: cs, d :: ds => c == d && startsWithL cs ds

/-- `containsL hay needle`: Python substring test `needle in hay`
(the empty needle is contained in everything). -/
def containsL : List Char → List Char → Bool
  | [], needle => needle.isEmpty
  | c :: t, needle => startsWithL (c :: t) needle || containsL t needle

/-- Python `needle in hay` on strings. -/
def pyInStr (needle hay : String) : Bool := containsL hay.data needle.data

/-- Python `str.strip()` (whitespace: space, `\t`, `\n`, `\r`, `\x0b`, `\x0c`). -/
def isPySpace (c : Char) : Bool :=
  c == ' ' || c == '\t' || c == '\n' || c == '\r' || c == '\x0b' || c == '\x0c'

def pyStrip (s : String) : String :=
  String.mk (((s.data.dropWhile isPySpace).reverse.dropWhile isPySpace).reverse)

/-- Python `str.lower()` for one character, ASCII range (the titles and the
draft titles the properties below exercise are ASCII; Lean's own
`String.toLower` is avoided only because its byte-position recursion does not
reduce definitionally). -/
def pyCharLower (c : Char) : Char :=
  if 'A' ≤ c && c ≤ 'Z' then Char.ofNat (c.toNat + 32) else c

/-- Python `str.lower()`. -/
def pyLower (s : String) : String := String.mk (s.data.map pyCharLower)

/-- Python `str(x)` for a `json.loads` value, as used at
`str(title).lower()` in `_enrich_with_posters`.  Only hashable values can
reach that expression (lists and dicts make the preceding dict membership
test raise first), so the `arr`/`obj` branches are unreachable there.  Float
display normalisation (`str(1e2) = "100.0"`) is not reproduced: the numeric
lexeme is kept, which no property below depends on. -/
def pyStr : Json → String
  | Json.null => "None"
  | Json.bool true => "True"
  | Json.bool false => "False"
  | Json.num lit => lit
  | Json.str s => s
  | Json.arr _ => "[...]"
  | Json.obj _ => "\x7b...\x7d"

/-! ## Metadata enricher (`VibeWatchRecommender._enrich_with_posters`) -/

/-- `title_to_poster = {doc.get("title", ""): doc.get("poster") for doc in docs}`:
a left fold of dict insertions, so duplicate titles keep the first
occurrence's position and the last occurrence's poster. -/
def titleToPoster (docs : List ItemDoc) : List (String × Json) :=
  docs.foldl (fun m d => insertKV m d.title (optJson d.poster)) []

/-- Python `title in title_to_poster`: dict membership hashes `title`, raising
`TypeError` for unhashable values (lists, dicts) before any comparison; for
hashable non-strings it is `False` since every key is a string. -/
def pyDictContains (title : Json) (m : List (String × Json)) : Except String Bool :=
  match title with
  | Json.arr _ => .error "TypeError: unhashable type: list"
  | Json.obj _ => .error "TypeError: unhashable type: dict"
  | Json.str s => .ok (jLookup m s).isSome
  | _ => .ok false

/-- The fuzzy-matching loop `for doc_title in title_to_poster: ...`:
iterate the dict keys in insertion order, lowercase both sides, test
bidirectional substring containment, stop at the first hit.  The dict keys
are strings, so `str(doc_title)` is the key itself. -/
def fuzzyScan (titleLower : String) : List (String × Json) → Option Json
  | [] => none
  | (docTitle, poster) :: rest =>
    let docTitleLower := pyLower docTitle
    if pyInStr titleLower docTitleLower || pyInStr docTitleLower titleLower then some poster
    else fuzzyScan titleLower rest

/-- The body of the `for rec in recs` loop in `_enrich_with_posters`, for one
entry.  `.error` marks the raise points: `rec.get` on a non-dict entry
(`AttributeError`) and dict membership on an unhashable title (`TypeError`). -/
def enrichOne (titleToPosterMap : List (String × Json)) (rec : Json) : Except String Json :=
  match rec with
  | Json.obj kvs =>
    let title := (jLookup kvs "title").getD (Json.str "")
    let kvs1 := insertKV kvs "poster" Json.null
    match pyDictContains title titleToPosterMap with
    | .error e => .error e
    | .ok true =>
      match title with
      | Json.str s =>
        match jLookup titleToPosterMap s with
        | some v => .ok (Json.obj (insertKV kvs1 "poster" v))
        | none => .error "KeyError"
      | _ => .error "KeyError"
    | .ok false =>
      match fuzzyScan (pyLower (pyStr title)) titleToPosterMap with
      | some v => .ok (Json.obj (insertKV kvs1 "poster" v))
      | none => .ok (Json.obj kvs1)
  | Json.null => .error "AttributeError: NoneType object has no attribute get"
  | Json.bool _ => .error "AttributeError: bool object has no attribute get"
  | Json.num _ => .error "AttributeError: number object has no attribute get"
  | Json.str _ => .error "AttributeError: str object has no attribute get"
  | Json.arr _ => .error "AttributeError: list object has no attribute get"

/-- The `for rec in recs` loop: entries processed in order; the first raise
propagates out of `recommend`. -/
def enrichList (m : List (String × Json)) : List Json → Except String (List Json)
  | [] => .ok []
  | r :: rs =>
    match enrichOne m r with
    | .error e => .error e
    | .ok r' =>
      match enrichList m rs with
      | .error e => .error e
      | .ok rs' => .ok (r' :: rs')

/-- `VibeWatchRecommender._enrich_with_posters(recs, docs)`. -/
def enrichWithPosters (recs : List Json) (docs : List ItemDoc) : Except String (List Json) :=
  enrichList (titleToPoster docs) recs

/-! ## Response recovery and the `recommend` facade -/

/-- The literal reason marker of the parse-failure fallback. -/
def fallbackReason : String := "(LLM parsing failed)"

/-- One fallback entry
`{"title": m.get("title", ""), "reason": "(LLM parsing failed)", "poster": m.get("poster")}`. -/
def fallbackEntry (m : ItemDoc) : Json :=
  Json.obj [("title", Json.str m.title), ("reason", Json.str fallbackReason),
    ("poster", optJson m.poster)]

/-- Index of the first occurrence of `c`. -/
def idxOfFirst (c : Char) : List Char → Option Nat
  | [] => none
  | d :: t => if d == c then some 0 else (idxOfFirst c t).map (· + 1)

/-- Index of the last occurrence of `c`. -/
def idxOfLast (c : Char) (l : List Char) : Option Nat :=
  (idxOfFirst c l.reverse).map (fun r => l.length - 1 - r)

/-- `re.search(r'\[.*\]', content, re.DOTALL)`: the leftmost match starts at
the first `[` and the greedy `.*` extends it to the last `]`; there is a
match exactly when some `]` lies after the first `[`.  Returns the matched
span. -/
def bracketSpan (s : String) : Option String :=
  match idxOfFirst '[' s.data, idxOfLast ']' s.data with
  | some p, some q =>
      if p < q then some (String.mk ((s.data.drop p).take (q - p + 1))) else none
  | _, _ => none

/-- Stages 2 and 3 of `recommend`: try `json.loads` on the whole stripped
content; on a parsed list, enrich it; otherwise (parse error or non-list)
fall back to the top-3 candidates. -/
def wholeTextStage (content : String) (docs : List ItemDoc) : Except String (List Json) :=
  match parseJson content with
  | some (Json.arr recs) => enrichWithPosters recs docs
  | _ => .ok ((docs.take 3).map fallbackEntry)

/-- The body of `VibeWatchRecommender.recommend` after the two external calls:
`content0` is `response.content` and `docs` is `retriever.retrieve(user_query, k)`.
Stage 1: bracket-scan the stripped content and `json.loads` the span; a parsed
list is enriched, anything else falls through to the whole-text stage. -/
def recommend (content0 : String) (docs : List ItemDoc) : Except String (List Json) :=
  let content := pyStrip content0
  match bracketSpan content with
  | some jsonStr =>
    match parseJson jsonStr with
    | some (Json.arr recs) => enrichWithPosters recs docs
    | _ => wholeTextStage content docs
  | none => wholeTextStage content docs

/-- The list the staged recovery hands to the enricher, when either parse
stage produced one (`none` means both stages failed and the fallback fires). -/
def recoveredList (content0 : String) : Option (List Json) :=
  let content := pyStrip content0
  match bracketSpan content with
  | some jsonStr =>
    match parseJson jsonStr with
    | some (Json.arr recs) => some recs
    | _ =>
      match parseJson content with
      | some (Json.arr recs) => some recs
      | _ => none
  | none =>
    match parseJson content with
    | some (Json.arr recs) => some recs
    | _ => none

/-- Recovery stage 1 in isolation: bracket span, then parse, succeeding only
on a parsed list. -/
def stage1 (content : String) : Option (List Json) :=
  match bracketSpan content with
  | some jsonStr =>
    match parseJson jsonStr with
    | some (Json.arr recs) => some recs
    | _ => none
  | none => none

/-- Whether a computation returned normally (no Python exception). -/
def exceptOk {ε α : Type} : Except ε α → Bool
  | .ok _ => true
  | .error _ => false

/-- A draft title value on which Python hashing cannot raise: anything except
a list or a dict. -/
def hashableTitle : Option Json → Bool
  | some (Json.arr _) => false
  | some (Json.obj _) => false
  | _ => true

/-- A recovered entry on which `_enrich_with_posters` cannot raise: a JSON
object whose `title` value, if present, is hashable. -/
def entrySafe : Json → Bool
  | Json.obj kvs => hashableTitle (jLookup kvs "title")
  | _ => false

/-- Reference description of the fuzzy stage: scan the candidates in their
retrieval order, lowercase both titles, test bidirectional substring
containment, stop at the first hit. -/
def firstFuzzyHit (t : String) : List ItemDoc → Option ItemDoc
  | [] => none
  | d :: rest =>
    if pyInStr (pyLower t) (pyLower d.title) || pyInStr (pyLower d.title) (pyLower t) then some d
    else firstFuzzyHit t rest

/-! ## Prompt construction (`src/prompting.py`)

`recommend` renders `USER_PROMPT` with `user_query` and
`retrieved_docs=json.dumps(docs, ensure_ascii=False)`.  `json.dumps` of the
metadata dicts is reproduced below with the dicts' key insertion order
(`id`, `title`, `genres`, `overview`, `poster`) and the default separators. -/

def hexDigitChar (n : Nat) : Char :=
  if n < 10 then Char.ofNat ('0'.toNat + n) else Char.ofNat ('a'.toNat + n - 10)

/-- `json.dumps` string escaping with `ensure_ascii=False`: only `"`, `\` and
control characters are escaped. -/
def pyJsonEscapeChar (c : Char) : String :=
  if c == '"' then "\\\""
  else if c == '\\' then "\\\\"
  else if c == '\n' then "\\n"
  else if c == '\t' then "\\t"
  else if c == '\r' then "\\r"
  else if c == '\x08' then "\\b"
  else if c == '\x0c' then "\\f"
  else if c.toNat < 32 then
    "\\u00" ++ String.mk [hexDigitChar (c.toNat / 16), hexDigitChar (c.toNat % 16)]
  else String.mk [c]

def pyJsonEscape (s : String) : String := String.join (s.data.map pyJsonEscapeChar)

def dumpStr (s : String) : String := "\"" ++ pyJsonEscape s ++ "\""

def dumpPoster : Option String → String
  | none => "null"
  | some p => dumpStr p

/-- `json.dumps` of one metadata dict. -/
def dumpDoc (d : ItemDoc) : String :=
  "\x7b\"id\": " ++ toString d.id ++ ", \"title\": " ++ dumpStr d.title ++
    ", \"genres\": " ++ dumpStr d.genres ++ ", \"overview\": " ++ dumpStr d.overview ++
    ", \"poster\": " ++ dumpPoster d.poster ++ "\x7d"

def joinComma : List String → String
  | [] => ""
  | [x] => x
  | x :: xs => x ++ ", " ++ joinComma xs

/-- `json.dumps(docs, ensure_ascii=False)`. -/
def dumpDocs (docs : List ItemDoc) : String := "[" ++ joinComma (docs.map dumpDoc) ++ "]"

/-- The rendered user message: `USER_PROMPT` with `{user_query}` and
`{retrieved_docs}` substituted (`{{`/`}}` unescape to literal braces). -/
def userMessage (q : String) (docs : List ItemDoc) : String :=
  "USER CONTEXT (free text):\n" ++ q ++
    "\n\nCANDIDATE MOVIES (JSON list of dicts):\n" ++ dumpDocs docs ++
    "\n\nReturn JSON:\n[\n  \x7b\"title\": \"...\", \"reason\": \"...\"\x7d,\n  ...\n]"

/-! ## Supporting lemmas -/

theorem jLookup_insertKV (m : List (String × Json)) (k t : String) (v : Json) :
    jLookup (insertKV m k v) t = if t = k then some v else jLookup m t := by
  induction m with
  | nil =>
    by_cases h : t = k
    · subst h
      simp [insertKV, jLookup]
    · simp [insertKV, jLookup, h, Ne.symm h]
  | cons kv rest ih =>
    obtain ⟨k', v'⟩ := kv
    by_cases hk : k' = k
    · subst hk
      by_cases ht : t = k'
      · subst ht
        simp [insertKV, jLookup]
      · simp [insertKV, jLookup, ht, Ne.symm ht]
    · by_cases ht : t = k'
      · subst ht
        simp [insertKV, jLookup, hk, Ne.symm hk]
      · simp [insertKV, jLookup, hk, ht, Ne.symm ht, ih]

/-- Keys reachable in `titleToPoster docs` (generalised over the fold's
accumulator): a key is present iff it is a candidate title or was already
in the accumulator. -/
theorem jLookup_foldl_isSome (docs : List ItemDoc) (m : List (String × Json)) (t : String) :
    (jLookup (docs.foldl (fun m d => insertKV m d.title (optJson d.poster)) m) t).isSome
      ↔ ((jLookup m t).isSome ∨ t ∈ docs.map ItemDoc.title) := by
  induction docs generalizing m with
  | nil => simp
  | cons d rest ih =>
    simp only [List.foldl_cons, List.map_cons, List.mem_cons]
    rw [ih]
    rw [jLookup_insertKV]
    by_cases h : t = d.title
    · simp [h]
    · simp [h]

theorem jLookup_titleToPoster_isSome (docs : List ItemDoc) (t : String) :
    (jLookup (titleToPoster docs) t).isSome ↔ t ∈ docs.map ItemDoc.title := by
  rw [titleToPoster, jLookup_foldl_isSome]
  simp [jLookup]

/-- A value found in `titleToPoster docs` is the poster of some candidate
bearing exactly that title (generalised over the fold's accumulator). -/
theorem jLookup_foldl_mem (docs : List ItemDoc) (m : List (String × Json)) (t : String)
    (v : Json)
    (h : jLookup (docs.foldl (fun m d => insertKV m d.title (optJson d.poster)) m) t = some v) :
    (∃ d ∈ docs, d.title = t ∧ v = optJson d.poster) ∨ jLookup m t = some v := by
  induction docs generalizing m with
  | nil => exact Or.inr h
  | cons d rest ih =>
    simp only [List.foldl_cons] at h
    rcases ih _ h with hmem | hacc
    · obtain ⟨d', hd', ht', hv'⟩ := hmem
      exact Or.inl ⟨d', List.mem_cons_of_mem _ hd', ht', hv'⟩
    · rw [jLookup_insertKV] at hacc
      by_cases ht : t = d.title
      · simp only [ht, if_pos rfl] at hacc
        exact Or.inl ⟨d, List.mem_cons_self _ _, ht.symm, (Option.some.injEq _ _).mp hacc.symm⟩
      · rw [if_neg ht] at hacc
        exact Or.inr hacc

theorem jLookup_titleToPoster_mem (docs : List ItemDoc) (t : String) (v : Json)
    (h : jLookup (titleToPoster docs) t = some v) :
    ∃ d ∈ docs, d.title = t ∧ v = optJson d.poster := by
  rcases jLookup_foldl_mem docs [] t v h with hmem | hacc
  · exact hmem
  · simp [jLookup] at hacc

/-- With pairwise-distinct candidate titles the title→poster dict is exactly
the candidate list in retrieval order (generalised over an accumulator whose
keys avoid the titles). -/
theorem foldl_insertKV_eq_append (docs : List ItemDoc) (m : List (String × Json))
    (hnodup : (docs.map ItemDoc.title).Nodup)
    (hdisj : ∀ kv ∈ m, ∀ d ∈ docs, kv.fst ≠ d.title) :
    docs.foldl (fun m d => insertKV m d.title (optJson d.poster)) m =
      m ++ docs.map (fun d => (d.title, optJson d.poster)) := by
  induction docs generalizing m with
  | nil => simp
  | cons d rest ih =>
    simp only [List.map_cons, List.nodup_cons] at hnodup
    have hins : insertKV m d.title (optJson d.poster) = m ++ [(d.title, optJson d.poster)] := by
      clear ih
      induction m with
      | nil => simp [insertKV]
      | cons kv mrest ihm =>
        obtain ⟨k', v'⟩ := kv
        have hk : k' ≠ d.title := hdisj (k', v') (List.mem_cons_self _ _) d (List.mem_cons_self _ _)
        simp only [insertKV, beq_iff_eq, if_neg hk, List.cons_append, List.cons.injEq, true_and]
        exact ihm fun kv hkv d' hd' => hdisj kv (List.mem_cons_of_mem _ hkv) d' hd'
    simp only [List.foldl_cons, hins]
    rw [ih (m := m ++ [(d.title, optJson d.poster)]) hnodup.2]
    · simp
    · intro kv hkv d' hd'
      rcases List.mem_append.mp hkv with hm | hsing
      · exact hdisj kv hm d' (List.mem_cons_of_mem _ hd')
      · simp only [List.mem_singleton] at hsing
        subst hsing
        intro hcontra
        simp only at hcontra
        exact hnodup.1 (hcontra ▸ List.mem_map_of_mem ItemDoc.title hd')

theorem titleToPoster_of_nodup (docs : List ItemDoc)
    (hnodup : (docs.map ItemDoc.title).Nodup) :
    titleToPoster docs = docs.map (fun d => (d.title, optJson d.poster)) := by
  have := foldl_insertKV_eq_append docs [] hnodup (by intro kv hkv; simp at hkv)
  simpa [titleToPoster] using this

/-! Substring containment: characterisation and closure lemmas. -/

theorem startsWithL_iff (hay needle : List Char) :
    startsWithL hay needle = true ↔ ∃ rest, hay = needle ++ rest := by
  induction needle generalizing hay with
  | nil =>
    constructor
    · intro _
      exact ⟨hay, rfl⟩
    · intro _
      cases hay <;> rfl
  | cons d ds ih =>
    cases hay with
    | nil =>
      constructor
      · intro h
        exact absurd h (by simp [startsWithL])
      · rintro ⟨rest, hrest⟩
        exact absurd hrest (by simp)
    | cons c cs =>
      show (c == d && startsWithL cs ds) = true ↔ _
      simp only [Bool.and_eq_true, beq_iff_eq, ih, List.cons_append, List.cons.injEq]
      constructor
      · rintro ⟨hcd, rest, hrest⟩
        exact ⟨rest, hcd, hrest⟩
      · rintro ⟨rest, hcd, hrest⟩
        exact ⟨hcd, rest, hrest⟩

theorem containsL_iff (hay needle : List Char) :
    containsL hay needle = true ↔ ∃ pre post, hay = pre ++ needle ++ post := by
  induction hay with
  | nil =>
    show needle.isEmpty = true ↔ _
    constructor
    · intro h
      exact ⟨[], [], by simp [List.isEmpty_iff.mp h]⟩
    · rintro ⟨pre, post, hsplit⟩
      rcases List.append_eq_nil.mp (List.append_eq_nil.mp hsplit.symm).1 with ⟨_, h2⟩
      simp [h2]
  | cons c cs ih =>
    show (startsWithL (c :: cs) needle || containsL cs needle) = true ↔ _
    simp only [Bool.or_eq_true, startsWithL_iff, ih]
    constructor
    · rintro (⟨rest, hrest⟩ | ⟨pre, post, hsplit⟩)
      · exact ⟨[], rest, by simp [hrest]⟩
      · exact ⟨c :: pre, post, by simp [hsplit]⟩
    · rintro ⟨pre, post, hsplit⟩
      cases pre with
      | nil =>
        exact Or.inl ⟨post, by simpa using hsplit⟩
      | cons p ps =>
        simp only [List.cons_append, List.cons.injEq] at hsplit
        exact Or.inr ⟨ps, post, hsplit.2⟩

theorem containsL_of_decomp (hay needle pre post : List Char)
    (h : hay = pre ++ needle ++ post) : containsL hay needle = true :=
  (containsL_iff hay needle).mpr ⟨pre, post, h⟩

/-- `joinComma` keeps every element as a contiguous substring. -/
theorem joinComma_decomp (l : List String) (s : String) (h : s ∈ l) :
    ∃ a b, (joinComma l).data = a ++ s.data ++ b := by
  induction l with
  | nil => simp at h
  | cons x xs ih =>
    rcases List.mem_cons.mp h with hx | hxs
    · subst hx
      cases xs with
      | nil => exact ⟨[], [], by simp [joinComma]⟩
      | cons y ys =>
        exact ⟨[], (", " ++ joinComma (y :: ys)).data, by
          simp [joinComma, String.data_append]⟩
    · obtain ⟨a, b, hab⟩ := ih hxs
      cases xs with
      | nil => simp at hxs
      | cons y ys =>
        refine ⟨(x ++ ", ").data ++ a, b, ?_⟩
        simp [joinComma, String.data_append, hab]

theorem jLookup_insertKV_self (m : List (String × Json)) (k : String) (v : Json) :
    jLookup (insertKV m k v) k = some v := by
  rw [jLookup_insertKV]
  simp

theorem jLookup_insertKV_ne (m : List (String × Json)) (k t : String) (v : Json)
    (h : t ≠ k) : jLookup (insertKV m k v) t = jLookup m t := by
  rw [jLookup_insertKV, if_neg h]

/-! Shape lemmas for the enricher. -/

/-- Exact-match branch: a string draft title that is a key of the dict gets
that key's stored poster, with no fuzzy scan involved. -/
theorem enrichOne_exact (m kvs : List (String × Json)) (s : String) (v : Json)
    (ht : (jLookup kvs "title").getD (Json.str "") = Json.str s)
    (hl : jLookup m s = some v) :
    enrichOne m (Json.obj kvs) =
      .ok (Json.obj (insertKV (insertKV kvs "poster" Json.null) "poster" v)) := by
  simp only [enrichOne, ht, pyDictContains, hl, Option.isSome_some]

/-- Exact-match miss: the result is decided by the fuzzy scan. -/
theorem enrichOne_fuzzyStage (m kvs : List (String × Json))
    (hfalse : pyDictContains ((jLookup kvs "title").getD (Json.str "")) m = .ok false) :
    enrichOne m (Json.obj kvs) =
      match fuzzyScan (pyLower (pyStr ((jLookup kvs "title").getD (Json.str "")))) m with
      | some v => .ok (Json.obj (insertKV (insertKV kvs "poster" Json.null) "poster" v))
      | none => .ok (Json.obj (insertKV kvs "poster" Json.null)) := by
  simp only [enrichOne, hfalse]

/-- Every normally-returned enriched entry is an object carrying a `poster`
key. -/
theorem enrichOne_ok_shape (m : List (String × Json)) (r out : Json)
    (h : enrichOne m r = .ok out) :
    ∃ kvs v, out = Json.obj kvs ∧ jLookup kvs "poster" = some v := by
  cases r with
  | obj kvs =>
    simp only [enrichOne] at h
    cases hc : pyDictContains ((jLookup kvs "title").getD (Json.str "")) m with
    | error e =>
      rw [hc] at h
      exact Except.noConfusion h
    | ok b =>
      rw [hc] at h
      cases b with
      | true =>
        cases ht : (jLookup kvs "title").getD (Json.str "") with
        | str s =>
          rw [ht] at h
          dsimp only at h
          cases hl : jLookup m s with
          | none =>
            rw [hl] at h
            exact Except.noConfusion h
          | some v =>
            rw [hl] at h
            injection h with h'
            exact ⟨_, v, h'.symm, jLookup_insertKV_self _ _ _⟩
        | null =>
          rw [ht] at h
          exact Except.noConfusion h
        | bool b =>
          rw [ht] at h
          exact Except.noConfusion h
        | num l =>
          rw [ht] at h
          exact Except.noConfusion h
        | arr xs =>
          rw [ht] at h
          exact Except.noConfusion h
        | obj kvs2 =>
          rw [ht] at h
          exact Except.noConfusion h
      | false =>
        dsimp only at h
        cases hf : fuzzyScan (pyLower (pyStr ((jLookup kvs "title").getD (Json.str "")))) m with
        | some v =>
          rw [hf] at h
          injection h with h'
          exact ⟨_, v, h'.symm, jLookup_insertKV_self _ _ _⟩
        | none =>
          rw [hf] at h
          injection h with h'
          exact ⟨_, Json.null, h'.symm, jLookup_insertKV_self _ _ _⟩
  | null => exact Except.noConfusion h
  | bool b => exact Except.noConfusion h
  | num l => exact Except.noConfusion h
  | str s => exact Except.noConfusion h
  | arr xs => exact Except.noConfusion h

/-- The enricher writes only the `poster` key: every other key of an entry is
returned unchanged. -/
theorem enrichOne_preserves_other_keys (m : List (String × Json)) (kvs : List (String × Json))
    (out : Json) (h : enrichOne m (Json.obj kvs) = .ok out) :
    ∃ kvs', out = Json.obj kvs' ∧
      ∀ key, key ≠ "poster" → jLookup kvs' key = jLookup kvs key := by
  simp only [enrichOne] at h
  cases hc : pyDictContains ((jLookup kvs "title").getD (Json.str "")) m with
  | error e =>
    rw [hc] at h
    exact Except.noConfusion h
  | ok b =>
    rw [hc] at h
    cases b with
    | true =>
      cases ht : (jLookup kvs "title").getD (Json.str "") with
      | str s =>
        rw [ht] at h
        dsimp only at h
        cases hl : jLookup m s with
        | none =>
          rw [hl] at h
          exact Except.noConfusion h
        | some v =>
          rw [hl] at h
          injection h with h'
          refine ⟨_, h'.symm, fun key hkey => ?_⟩
          rw [jLookup_insertKV_ne _ _ _ _ hkey, jLookup_insertKV_ne _ _ _ _ hkey]
      | null =>
        rw [ht] at h
        exact Except.noConfusion h
      | bool b =>
        rw [ht] at h
        exact Except.noConfusion h
      | num l =>
        rw [ht] at h
        exact Except.noConfusion h
      | arr xs =>
        rw [ht] at h
        exact Except.noConfusion h
      | obj kvs2 =>
        rw [ht] at h
        exact Except.noConfusion h
    | false =>
      dsimp only at h
      cases hf : fuzzyScan (pyLower (pyStr ((jLookup kvs "title").getD (Json.str "")))) m with
      | some v =>
        rw [hf] at h
        injection h with h'
        refine ⟨_, h'.symm, fun key hkey => ?_⟩
        rw [jLookup_insertKV_ne _ _ _ _ hkey, jLookup_insertKV_ne _ _ _ _ hkey]
      | none =>
        rw [hf] at h
        injection h with h'
        refine ⟨_, h'.symm, fun key hkey => ?_⟩
        rw [jLookup_insertKV_ne _ _ _ _ hkey]

/-- An entry with a hashable (or missing) title never makes the enricher
raise. -/
theorem enrichOne_safe (m : List (String × Json)) (r : Json) (h : entrySafe r = true) :
    ∃ out, enrichOne m r = .ok out := by
  cases r with
  | obj kvs =>
    simp only [entrySafe] at h
    have hstr : ∀ s : String, (jLookup kvs "title").getD (Json.str "") = Json.str s →
        ∃ out, enrichOne m (Json.obj kvs) = .ok out := by
      intro s ht
      cases hl : jLookup m s with
      | some v => exact ⟨_, enrichOne_exact m kvs s v ht hl⟩
      | none =>
        have hfalse : pyDictContains ((jLookup kvs "title").getD (Json.str "")) m
            = .ok false := by
          rw [ht]
          simp [pyDictContains, hl]
        rw [enrichOne_fuzzyStage m kvs hfalse]
        cases fuzzyScan (pyLower (pyStr ((jLookup kvs "title").getD (Json.str "")))) m with
        | some v => exact ⟨_, rfl⟩
        | none => exact ⟨_, rfl⟩
    cases htop : jLookup kvs "title" with
    | none => exact hstr "" (by rw [htop]; rfl)
    | some title =>
      cases title with
      | str s => exact hstr s (by rw [htop]; rfl)
      | arr xs =>
        rw [htop] at h
        exact absurd h (by simp [hashableTitle])
      | obj kvs2 =>
        rw [htop] at h
        exact absurd h (by simp [hashableTitle])
      | null =>
        have hfalse : pyDictContains ((jLookup kvs "title").getD (Json.str "")) m
            = .ok false := by rw [htop]; rfl
        rw [enrichOne_fuzzyStage m kvs hfalse]
        cases fuzzyScan (pyLower (pyStr ((jLookup kvs "title").getD (Json.str "")))) m with
        | some v => exact ⟨_, rfl⟩
        | none => exact ⟨_, rfl⟩
      | bool b =>
        have hfalse : pyDictContains ((jLookup kvs "title").getD (Json.str "")) m
            = .ok false := by rw [htop]; rfl
        rw [enrichOne_fuzzyStage m kvs hfalse]
        cases fuzzyScan (pyLower (pyStr ((jLookup kvs "title").getD (Json.str "")))) m with
        | some v => exact ⟨_, rfl⟩
        | none => exact ⟨_, rfl⟩
      | num l =>
        have hfalse : pyDictContains ((jLookup kvs "title").getD (Json.str "")) m
            = .ok false := by rw [htop]; rfl
        rw [enrichOne_fuzzyStage m kvs hfalse]
        cases fuzzyScan (pyLower (pyStr ((jLookup kvs "title").getD (Json.str "")))) m with
        | some v => exact ⟨_, rfl⟩
        | none => exact ⟨_, rfl⟩
  | null => exact absurd h (by simp [entrySafe])
  | bool b => exact absurd h (by simp [entrySafe])
  | num l => exact absurd h (by simp [entrySafe])
  | str s => exact absurd h (by simp [entrySafe])
  | arr xs => exact absurd h (by simp [entrySafe])

theorem enrichList_ok_length (m : List (String × Json)) (recs out : List Json)
    (h : enrichList m recs = .ok out) : out.length = recs.length := by
  induction recs generalizing out with
  | nil =>
    simp only [enrichList] at h
    injection h with h'
    rw [← h']
  | cons r rs ih =>
    simp only [enrichList] at h
    cases h1 : enrichOne m r with
    | error e =>
      rw [h1] at h
      exact Except.noConfusion h
    | ok r' =>
      rw [h1] at h
      cases h2 : enrichList m rs with
      | error e =>
        rw [h2] at h
        exact Except.noConfusion h
      | ok rs' =>
        rw [h2] at h
        injection h with h'
        rw [← h']
        simp [ih rs' h2]

theorem enrichList_ok_get (m : List (String × Json)) (recs out : List Json)
    (h : enrichList m recs = .ok out) (i : Nat) :
    ∀ r, recs[i]? = some r → ∃ e, out[i]? = some e ∧ enrichOne m r = .ok e := by
  induction recs generalizing out i with
  | nil =>
    intro r hr
    simp at hr
  | cons r0 rs ih =>
    intro r hr
    simp only [enrichList] at h
    cases h1 : enrichOne m r0 with
    | error e =>
      rw [h1] at h
      exact Except.noConfusion h
    | ok r' =>
      rw [h1] at h
      cases h2 : enrichList m rs with
      | error e =>
        rw [h2] at h
        exact Except.noConfusion h
      | ok rs' =>
        rw [h2] at h
        injection h with h'
        subst h'
        cases i with
        | zero =>
          simp only [List.getElem?_cons_zero, Option.some.injEq] at hr
          exact ⟨r', by simp, hr ▸ h1⟩
        | succ n =>
          simp only [List.getElem?_cons_succ] at hr ⊢
          exact ih rs' h2 n r hr

theorem enrichList_safe (m : List (String × Json)) (recs : List Json)
    (h : ∀ r ∈ recs, entrySafe r = true) : ∃ out, enrichList m recs = .ok out := by
  induction recs with
  | nil => exact ⟨[], rfl⟩
  | cons r rs ih =>
    obtain ⟨r', hr'⟩ := enrichOne_safe m r (h r (List.mem_cons_self _ _))
    obtain ⟨rs', hrs'⟩ := ih fun x hx => h x (List.mem_cons_of_mem _ hx)
    exact ⟨r' :: rs', by simp only [enrichList, hr', hrs']⟩

/-! The staged recovery of `recommend`, factored through `recoveredList`. -/

theorem recommend_eq_recovered (c : String) (docs : List ItemDoc) :
    recommend c docs =
      match recoveredList c with
      | some recs => enrichWithPosters recs docs
      | none => .ok ((docs.take 3).map fallbackEntry) := by
  simp only [recommend, recoveredList, wholeTextStage]
  cases hb : bracketSpan (pyStrip c) with
  | none =>
    cases hp : parseJson (pyStrip c) with
    | none => rfl
    | some v => cases v <;> rfl
  | some s =>
    dsimp only
    cases hp : parseJson s with
    | none =>
      cases hp2 : parseJson (pyStrip c) with
      | none => rfl
      | some v => cases v <;> rfl
    | some v =>
      cases v with
      | arr recs => rfl
      | null | bool _ | num _ | str _ | obj _ =>
        dsimp only
        cases hp2 : parseJson (pyStrip c) with
        | none => rfl
        | some v2 => cases v2 <;> rfl

theorem enrichList_ok_mem (m : List (String × Json)) (recs out : List Json)
    (h : enrichList m recs = .ok out) :
    ∀ e ∈ out, ∃ r ∈ recs, enrichOne m r = .ok e := by
  induction recs generalizing out with
  | nil =>
    simp only [enrichList] at h
    injection h with h'
    rw [← h']
    intro e he
    simp at he
  | cons r0 rs ih =>
    simp only [enrichList] at h
    cases h1 : enrichOne m r0 with
    | error e =>
      rw [h1] at h
      exact Except.noConfusion h
    | ok r' =>
      rw [h1] at h
      cases h2 : enrichList m rs with
      | error e =>
        rw [h2] at h
        exact Except.noConfusion h
      | ok rs' =>
        rw [h2] at h
        injection h with h'
        rw [← h']
        intro e he
        rcases List.mem_cons.mp he with he0 | hemem
        · exact ⟨r0, List.mem_cons_self _ _, he0 ▸ h1⟩
        · obtain ⟨r, hr, hone⟩ := ih rs' h2 e hemem
          exact ⟨r, List.mem_cons_of_mem _ hr, hone⟩

/-! ## Claim theorems -/

/-- C1 (amended): `recommend` absorbs output-shape problems and returns a
result list without raising, for every raw model text whose recovered list
(when one of the two parse stages yields a list at all) consists of JSON
objects whose `title` values are hashable; in particular, when both stages
fail the terminal fallback never fails.  (The unrestricted claim is refuted
by `c1_counterexample`: a parsed list with non-object entries makes the
enricher raise.) -/
theorem c1_output_shape_errors_absorbed (content : String) (docs : List ItemDoc)
    (h : ∀ recs, recoveredList content = some recs → ∀ r ∈ recs, entrySafe r = true) :
    exceptOk (recommend content docs) = true := by
  rw [recommend_eq_recovered]
  cases hr : recoveredList content with
  | none => rfl
  | some recs =>
    obtain ⟨out, hout⟩ :=
      enrichList_safe (titleToPoster docs) recs (h recs hr)
    dsimp only
    simp only [enrichWithPosters, hout]
    rfl

/-- C1 witness: on unparsable text with no recovered list the hypothesis is
vacuous and `recommend` returns normally. -/
theorem c1_witness :
    exceptOk (recommend "no list here" [⟨0, "Toy Story", "g", "o", some "u"⟩]) = true :=
  c1_output_shape_errors_absorbed "no list here" [⟨0, "Toy Story", "g", "o", some "u"⟩]
    (by
      intro recs hrecs r hr
      have h0 : recoveredList "no list here" = none := rfl
      rw [h0] at hrecs
      exact Option.noConfusion hrecs)

/-- C1 counterexample: the model text `[1, 2, 3]` parses to a list of
non-object entries and `rec.get("title", "")` raises `AttributeError`, so
`recommend` does not absorb this output-shape problem. -/
theorem c1_counterexample :
    exceptOk (recommend "[1, 2, 3]" [⟨0, "Toy Story", "g", "o", some "u"⟩]) = false := rfl

/-- C2: when both parse stages fail and at least one candidate was retrieved,
`recommend` returns exactly the top `min(3, number of candidates)` candidates
in retrieval order, each entry `{"title": candidate title, "reason":
"(LLM parsing failed)", "poster": candidate poster unmodified}`. -/
theorem c2_fallback_top3 (content : String) (docs : List ItemDoc)
    (hfail : recoveredList content = none) (hne : docs ≠ []) :
    recommend content docs = .ok ((docs.take 3).map fallbackEntry) ∧
      ((docs.take 3).map fallbackEntry).length = min 3 docs.length := by
  refine ⟨?_, by simp⟩
  rw [recommend_eq_recovered, hfail]

/-- C2 witness: unparsable text with five candidates yields the top three in
order with the literal fallback marker and unmodified posters. -/
theorem c2_witness :
    recommend "???" [⟨0, "A", "g", "o", some "pa"⟩, ⟨1, "B", "g", "o", none⟩,
        ⟨2, "C", "g", "o", some "pc"⟩, ⟨3, "D", "g", "o", some "pd"⟩,
        ⟨4, "E", "g", "o", some "pe"⟩] =
      .ok ((([⟨0, "A", "g", "o", some "pa"⟩, ⟨1, "B", "g", "o", none⟩,
        ⟨2, "C", "g", "o", some "pc"⟩, ⟨3, "D", "g", "o", some "pd"⟩,
        ⟨4, "E", "g", "o", some "pe"⟩] : List ItemDoc).take 3).map fallbackEntry) ∧
      ((([⟨0, "A", "g", "o", some "pa"⟩, ⟨1, "B", "g", "o", none⟩,
        ⟨2, "C", "g", "o", some "pc"⟩, ⟨3, "D", "g", "o", some "pd"⟩,
        ⟨4, "E", "g", "o", some "pe"⟩] : List ItemDoc).take 3).map fallbackEntry).length =
        min 3 ([⟨0, "A", "g", "o", some "pa"⟩, ⟨1, "B", "g", "o", none⟩,
        ⟨2, "C", "g", "o", some "pc"⟩, ⟨3, "D", "g", "o", some "pd"⟩,
        ⟨4, "E", "g", "o", some "pe"⟩] : List ItemDoc).length :=
  c2_fallback_top3 "???" _ rfl (by simp)

/-- C4 (amended): every entry of every normally returned result list is an
object carrying a `poster` key (never absent), and when neither the exact
nor the fuzzy match finds a candidate the value is explicitly `null`.  (The
claim's "null exactly when unmatched" is refuted by `c4_counterexample`: an
exact match to a candidate whose own poster is `null` also yields `null`.) -/
theorem c4_poster_key_always_present :
    (∀ (content : String) (docs : List ItemDoc) (out : List Json),
        recommend content docs = .ok out →
        ∀ e ∈ out, ∃ kvs v, e = Json.obj kvs ∧ jLookup kvs "poster" = some v) ∧
    (∀ (m kvs : List (String × Json)),
        pyDictContains ((jLookup kvs "title").getD (Json.str "")) m = .ok false →
        fuzzyScan (pyLower (pyStr ((jLookup kvs "title").getD (Json.str "")))) m = none →
        enrichOne m (Json.obj kvs) = .ok (Json.obj (insertKV kvs "poster" Json.null))) := by
  constructor
  · intro content docs out hout e he
    rw [recommend_eq_recovered] at hout
    cases hr : recoveredList content with
    | none =>
      rw [hr] at hout
      dsimp only at hout
      injection hout with h'
      rw [← h'] at he
      obtain ⟨mdoc, hmem, hfb⟩ := List.mem_map.mp he
      refine ⟨[("title", Json.str mdoc.title), ("reason", Json.str fallbackReason),
        ("poster", optJson mdoc.poster)], optJson mdoc.poster, ?_, ?_⟩
      · rw [← hfb]
        rfl
      · simp [jLookup]
    | some recs =>
      rw [hr] at hout
      dsimp only at hout
      simp only [enrichWithPosters] at hout
      obtain ⟨r, _, hone⟩ := enrichList_ok_mem _ recs out hout e he
      exact enrichOne_ok_shape _ r e hone
  · intro m kvs hfalse hfuzz
    rw [enrichOne_fuzzyStage m kvs hfalse, hfuzz]

/-- C4 witness: instantiates both conjuncts (abstract parts applied at a
concrete run with a matched and an unmatched entry). -/
theorem c4_witness :
    (∀ e ∈ [Json.obj [("title", Json.str "B"), ("poster", Json.str "pb")],
        Json.obj [("title", Json.str "Zzz"), ("poster", Json.null)]],
      ∃ kvs v, e = Json.obj kvs ∧ jLookup kvs "poster" = some v) ∧
    enrichOne [] (Json.obj []) = .ok (Json.obj (insertKV [] "poster" Json.null)) :=
  ⟨c4_poster_key_always_present.1 "[\x7b\"title\": \"B\"\x7d, \x7b\"title\": \"Zzz\"\x7d]"
      [⟨1, "B", "g", "o", some "pb"⟩] _ (by rfl),
    c4_poster_key_always_present.2 [] [] (by rfl) (by rfl)⟩

/-- C4 counterexample: the draft title `"B"` exactly matches a retrieved
candidate, yet the returned poster is `null` because that candidate's poster
is `null` — so `poster = null` does not imply "no matching candidate". -/
theorem c4_counterexample :
    recommend "[\x7b\"title\": \"B\"\x7d]"
        [⟨0, "T", "g", "o", some "pt"⟩, ⟨1, "B", "g", "o", none⟩] =
      .ok [Json.obj [("title", Json.str "B"), ("poster", Json.null)]] ∧
    pyDictContains (Json.str "B")
        (titleToPoster [⟨0, "T", "g", "o", some "pt"⟩, ⟨1, "B", "g", "o", none⟩]) =
      .ok true :=
  ⟨rfl, rfl⟩

/-- C5: if a draft's title is a string exactly equal to the title of some
candidate of this request's retrieval, the enricher takes the exact-match
branch (the fuzzy stage is structurally bypassed) and the returned poster is
the poster of a candidate bearing exactly that title — even when that poster
is `null`. -/
theorem c5_exact_title_match (docs : List ItemDoc) (kvs : List (String × Json)) (t : String)
    (ht : jLookup kvs "title" = some (Json.str t))
    (hmem : t ∈ docs.map ItemDoc.title) :
    ∃ d ∈ docs, d.title = t ∧
      enrichOne (titleToPoster docs) (Json.obj kvs) =
        .ok (Json.obj (insertKV (insertKV kvs "poster" Json.null) "poster"
          (optJson d.poster))) := by
  have hsome : (jLookup (titleToPoster docs) t).isSome :=
    (jLookup_titleToPoster_isSome docs t).mpr hmem
  obtain ⟨v, hv⟩ := Option.isSome_iff_exists.mp hsome
  obtain ⟨d, hd, hdt, hdv⟩ := jLookup_titleToPoster_mem docs t v hv
  refine ⟨d, hd, hdt, ?_⟩
  rw [← hdv]
  exact enrichOne_exact _ kvs t v (by rw [ht]; rfl) hv

/-- C5 witness: the only candidate has a `null` poster, the draft matches it
exactly, and the `null` is propagated. -/
theorem c5_witness :
    ∃ d ∈ [(⟨1, "B", "g", "o", none⟩ : ItemDoc)], d.title = "B" ∧
      enrichOne (titleToPoster [⟨1, "B", "g", "o", none⟩])
          (Json.obj [("title", Json.str "B"), ("reason", Json.str "r")]) =
        .ok (Json.obj (insertKV (insertKV [("title", Json.str "B"), ("reason", Json.str "r")]
          "poster" Json.null) "poster" (optJson d.poster))) :=
  c5_exact_title_match [⟨1, "B", "g", "o", none⟩]
    [("title", Json.str "B"), ("reason", Json.str "r")] "B" rfl (by simp)

/-- C8 (amended): entries missing a `title` or `reason` key are retained,
never dropped — the output has the same length, and every object entry keeps
all its keys other than `poster` exactly as they were (so the missing keys
stay missing in the returned sequence; the empty-string default exists only
inside the matcher).  (The claim's "retained *with empty-string defaults*"
is refuted by `c8_counterexample`.) -/
theorem c8_entries_retained (m : List (String × Json)) (recs out : List Json)
    (h : enrichList m recs = .ok out) :
    out.length = recs.length ∧
    ∀ (i : Nat) (kvs : List (String × Json)), recs[i]? = some (Json.obj kvs) →
      ∃ kvs', out[i]? = some (Json.obj kvs') ∧
        ∀ key, key ≠ "poster" → jLookup kvs' key = jLookup kvs key := by
  refine ⟨enrichList_ok_length m recs out h, ?_⟩
  intro i kvs hr
  obtain ⟨e, he, hone⟩ := enrichList_ok_get m recs out h i _ hr
  obtain ⟨kvs', hkvs', hpres⟩ := enrichOne_preserves_other_keys m kvs e hone
  rw [hkvs'] at he
  exact ⟨kvs', he, hpres⟩

/-- C8 witness: a keyless entry is retained at its position with no keys
added besides `poster`. -/
theorem c8_witness :
    ([Json.obj [("poster", Json.null)]] : List Json).length = ([Json.obj []] : List Json).length ∧
    ∀ (i : Nat) (kvs : List (String × Json)),
      ([Json.obj []] : List Json)[i]? = some (Json.obj kvs) →
      ∃ kvs', ([Json.obj [("poster", Json.null)]] : List Json)[i]? = some (Json.obj kvs') ∧
        ∀ key, key ≠ "poster" → jLookup kvs' key = jLookup kvs key :=
  c8_entries_retained [] [Json.obj []] [Json.obj [("poster", Json.null)]] rfl

/-- C8 counterexample: the recovered entry `{}` has no `title` key, and the
returned entry still has none — `recommend` does not write empty-string
defaults into the returned sequence. -/
theorem c8_counterexample :
    recommend "[\x7b\x7d]" [] = .ok [Json.obj [("poster", Json.null)]] ∧
      jLookup [("poster", Json.null)] "title" = none :=
  ⟨rfl, rfl⟩

/-- C6 (scan-order lemma): on the dict built from candidates with pairwise
distinct titles, the fuzzy loop is exactly a scan of the candidates in
retrieval order. -/
theorem fuzzyScan_map_docs (t : String) (docs : List ItemDoc) :
    fuzzyScan (pyLower t) (docs.map (fun d => (d.title, optJson d.poster))) =
      (firstFuzzyHit t docs).map (fun d => optJson d.poster) := by
  induction docs with
  | nil => rfl
  | cons d rest ih =>
    simp only [List.map_cons, fuzzyScan, firstFuzzyHit]
    by_cases h : (pyInStr (pyLower t) (pyLower d.title)
        || pyInStr (pyLower d.title) (pyLower t)) = true
    · simp [h]
    · simp only [Bool.not_eq_true] at h
      simp [h, ih]

theorem startsWithL_nil (hay : List Char) : startsWithL hay [] = true := by
  cases hay <;> rfl

theorem containsL_nil (hay : List Char) : containsL hay [] = true := by
  cases hay with
  | nil => rfl
  | cons c t =>
    show (startsWithL (c :: t) [] || containsL t []) = true
    rw [startsWithL_nil]
    rfl

/-- C6: on an exact-match miss, fuzzy matching lowercases both titles, tests
bidirectional substring containment, scans the candidates in their original
retrieval order and stops at the first hit (stated for pairwise-distinct
candidate titles, where the title→poster dict is the candidate list itself);
in particular, with candidates `["Inside Out", "Inside Out 2"]` in that order
and draft title `"Out"` the match resolves to `"Inside Out"`, not
`"Inside Out 2"`. -/
theorem c6_fuzzy_scan_order :
    (∀ (docs : List ItemDoc) (kvs : List (String × Json)) (t : String),
        (docs.map ItemDoc.title).Nodup →
        jLookup kvs "title" = some (Json.str t) →
        t ∉ docs.map ItemDoc.title →
        enrichOne (titleToPoster docs) (Json.obj kvs) =
          .ok (Json.obj (match firstFuzzyHit t docs with
            | some d => insertKV (insertKV kvs "poster" Json.null) "poster" (optJson d.poster)
            | none => insertKV kvs "poster" Json.null))) ∧
    enrichOne (titleToPoster [⟨0, "Inside Out", "g", "o", some "p1"⟩,
        ⟨1, "Inside Out 2", "g", "o", some "p2"⟩])
        (Json.obj [("title", Json.str "Out"), ("reason", Json.str "r")]) =
      .ok (Json.obj [("title", Json.str "Out"), ("reason", Json.str "r"),
        ("poster", Json.str "p1")]) := by
  constructor
  · intro docs kvs t hnodup ht hnotmem
    have htt : (jLookup kvs "title").getD (Json.str "") = Json.str t := by
      rw [ht]
      rfl
    have hnone : jLookup (titleToPoster docs) t = none := by
      cases hq : jLookup (titleToPoster docs) t with
      | none => rfl
      | some v =>
        exact absurd ((jLookup_titleToPoster_isSome docs t).mp (by rw [hq]; rfl)) hnotmem
    have hfalse : pyDictContains ((jLookup kvs "title").getD (Json.str ""))
        (titleToPoster docs) = .ok false := by
      rw [htt]
      show Except.ok (jLookup (titleToPoster docs) t).isSome = Except.ok false
      rw [hnone]
      rfl
    rw [enrichOne_fuzzyStage _ _ hfalse, htt]
    rw [titleToPoster_of_nodup docs hnodup]
    show (match fuzzyScan (pyLower t) (docs.map fun d => (d.title, optJson d.poster)) with
      | some v => Except.ok (Json.obj (insertKV (insertKV kvs "poster" Json.null) "poster" v))
      | none => Except.ok (Json.obj (insertKV kvs "poster" Json.null))) = _
    rw [fuzzyScan_map_docs]
    cases firstFuzzyHit t docs <;> rfl
  · rfl

/-- C6 witness: the abstract part applied to the Inside Out example. -/
theorem c6_witness :
    enrichOne (titleToPoster [⟨0, "Inside Out", "g", "o", some "p1"⟩,
        ⟨1, "Inside Out 2", "g", "o", some "p2"⟩])
        (Json.obj [("title", Json.str "Out")]) =
      .ok (Json.obj (match firstFuzzyHit "Out" [⟨0, "Inside Out", "g", "o", some "p1"⟩,
          ⟨1, "Inside Out 2", "g", "o", some "p2"⟩] with
        | some d => insertKV (insertKV [("title", Json.str "Out")] "poster" Json.null)
            "poster" (optJson d.poster)
        | none => insertKV [("title", Json.str "Out")] "poster" Json.null)) :=
  c6_fuzzy_scan_order.1 [⟨0, "Inside Out", "g", "o", some "p1"⟩,
    ⟨1, "Inside Out 2", "g", "o", some "p2"⟩] [("title", Json.str "Out")] "Out"
    (by decide) rfl (by decide)

/-- C10 (amended): a draft with a missing or empty-string title is never left
unmatched when candidates exist with pairwise-distinct non-empty titles: the
empty string passes the containment test against every title, so the fuzzy
scan stops at the first candidate and assigns its poster (`null` only when
that poster is `null`).  (Without the distinctness assumption the claim fails,
`c10_counterexample`: for duplicate titles the dict is last-wins, so the
assigned poster is the *last* duplicate's, not the first candidate's.) -/
theorem c10_missing_title_gets_first_poster (docs : List ItemDoc)
    (kvs : List (String × Json)) (d0 : ItemDoc) (hhead : docs.head? = some d0)
    (hnodup : (docs.map ItemDoc.title).Nodup)
    (hnonempty : ∀ d ∈ docs, d.title ≠ "")
    (htitle : jLookup kvs "title" = none ∨ jLookup kvs "title" = some (Json.str "")) :
    enrichOne (titleToPoster docs) (Json.obj kvs) =
      .ok (Json.obj (insertKV (insertKV kvs "poster" Json.null) "poster"
        (optJson d0.poster))) ∧
    ((optJson d0.poster = Json.null) ↔ d0.poster = none) := by
  have htt : (jLookup kvs "title").getD (Json.str "") = Json.str "" := by
    rcases htitle with h | h <;> rw [h] <;> rfl
  have hnotmem : "" ∉ docs.map ItemDoc.title := by
    intro hmem
    obtain ⟨d, hd, hdt⟩ := List.mem_map.mp hmem
    exact hnonempty d hd hdt
  have hnone : jLookup (titleToPoster docs) "" = none := by
    cases hq : jLookup (titleToPoster docs) "" with
    | none => rfl
    | some v =>
      exact absurd ((jLookup_titleToPoster_isSome docs "").mp (by rw [hq]; rfl)) hnotmem
  have hfalse : pyDictContains ((jLookup kvs "title").getD (Json.str ""))
      (titleToPoster docs) = .ok false := by
    rw [htt]
    show Except.ok (jLookup (titleToPoster docs) "").isSome = Except.ok false
    rw [hnone]
    rfl
  refine ⟨?_, by cases d0.poster <;> simp [optJson]⟩
  rw [enrichOne_fuzzyStage _ _ hfalse, htt]
  rw [titleToPoster_of_nodup docs hnodup]
  cases docs with
  | nil => exact absurd hhead (by simp)
  | cons dh rest =>
    have hd0 : dh = d0 := by
      simp only [List.head?_cons, Option.some.injEq] at hhead
      exact hhead
    subst hd0
    simp only [List.map_cons, fuzzyScan]
    have hcond : pyInStr (pyLower (pyStr (Json.str ""))) (pyLower dh.title) = true := by
      show containsL (pyLower dh.title).data (pyLower (pyStr (Json.str ""))).data = true
      exact containsL_nil _
    rw [hcond]
    simp

/-- C10 witness: a titleless draft against one non-empty-titled candidate
receives that candidate's poster. -/
theorem c10_witness :
    enrichOne (titleToPoster [⟨0, "A", "g", "o", some "pa"⟩]) (Json.obj []) =
      .ok (Json.obj (insertKV (insertKV [] "poster" Json.null) "poster"
        (optJson (⟨0, "A", "g", "o", some "pa"⟩ : ItemDoc).poster))) ∧
    ((optJson (⟨0, "A", "g", "o", some "pa"⟩ : ItemDoc).poster = Json.null) ↔
      (⟨0, "A", "g", "o", some "pa"⟩ : ItemDoc).poster = none) :=
  c10_missing_title_gets_first_poster [⟨0, "A", "g", "o", some "pa"⟩] []
    ⟨0, "A", "g", "o", some "pa"⟩ rfl (by decide)
    (by
      intro d hd
      simp only [List.mem_singleton] at hd
      subst hd
      decide)
    (Or.inl rfl)

/-- C10 counterexample: with duplicate candidate titles `["A", "A"]` whose
posters are `"p1"` and `"p2"`, a titleless draft receives `"p2"` (the dict is
last-wins), not the first candidate's `"p1"` as the claim states. -/
theorem c10_counterexample :
    enrichOne (titleToPoster [⟨0, "A", "g", "o", some "p1"⟩, ⟨1, "A", "g", "o", some "p2"⟩])
        (Json.obj []) = .ok (Json.obj [("poster", Json.str "p2")]) ∧
      Json.str "p2" ≠ Json.str "p1" :=
  ⟨rfl, by simp⟩

theorem idxOfFirst_cons_self (c : Char) (t : List Char) : idxOfFirst c (c :: t) = some 0 := by
  simp [idxOfFirst]

theorem idxOfFirst_append_of_not_mem (c : Char) (A B : List Char) (h : c ∉ A) :
    idxOfFirst c (A ++ B) = (idxOfFirst c B).map (· + A.length) := by
  induction A with
  | nil =>
    simp only [List.nil_append, List.length_nil]
    cases hB : idxOfFirst c B <;> simp [hB]
  | cons a A' ih =>
    have ha : ¬(a = c) := fun hh => h (hh ▸ List.mem_cons_self a A')
    have hA' : c ∉ A' := fun hh => h (List.mem_cons_of_mem a hh)
    rw [List.cons_append]
    show (if a == c then some 0 else (idxOfFirst c (A' ++ B)).map (· + 1)) = _
    rw [if_neg (by simp [ha]), ih hA']
    cases hB : idxOfFirst c B <;> simp [hB, Nat.add_assoc]

/-- Regex stage-1 extraction on well-delimited input: if the prefix holds no
`[` and the suffix no `]`, the greedy span is exactly the embedded list. -/
theorem bracketSpan_of_decomp (pre lst post : String)
    (hpre : '[' ∉ pre.data) (hpost : ']' ∉ post.data)
    (hhead : lst.data.head? = some '[') (hlast : lst.data.getLast? = some ']') :
    bracketSpan (pre ++ lst ++ post) = some lst := by
  have hdata : (pre ++ lst ++ post).data = pre.data ++ (lst.data ++ post.data) := by
    rw [String.data_append, String.data_append, List.append_assoc]
  obtain ⟨lmid, hl⟩ : ∃ lrest, lst.data = '[' :: lrest := by
    cases hld : lst.data with
    | nil =>
      rw [hld] at hhead
      exact absurd hhead (by simp)
    | cons c t =>
      rw [hld] at hhead
      simp only [List.head?_cons, Option.some.injEq] at hhead
      exact ⟨t, by rw [hhead]⟩
  obtain ⟨rmid, hr⟩ : ∃ rrest, lst.data.reverse = ']' :: rrest := by
    have hrevhead : lst.data.reverse.head? = some ']' := by
      rw [List.head?_reverse]
      exact hlast
    cases hld : lst.data.reverse with
    | nil =>
      rw [hld] at hrevhead
      exact absurd hrevhead (by simp)
    | cons c t =>
      rw [hld] at hrevhead
      simp only [List.head?_cons, Option.some.injEq] at hrevhead
      exact ⟨t, by rw [hrevhead]⟩
  have hlen2 : 2 ≤ lst.data.length := by
    rw [hl]
    cases lmid with
    | nil =>
      exfalso
      rw [hl] at hlast
      exact absurd hlast (by decide)
    | cons x xs => simp [List.length_cons]
  have hfirst : idxOfFirst '[' (pre ++ lst ++ post).data = some pre.data.length := by
    rw [hdata, idxOfFirst_append_of_not_mem _ _ _ hpre, hl, List.cons_append,
      idxOfFirst_cons_self]
    simp
  have hrevdata : (pre ++ lst ++ post).data.reverse =
      post.data.reverse ++ (lst.data.reverse ++ pre.data.reverse) := by
    rw [hdata]
    simp [List.reverse_append, List.append_assoc]
  have hlastidx : idxOfLast ']' (pre ++ lst ++ post).data =
      some (pre.data.length + lst.data.length - 1) := by
    have hpost' : ']' ∉ post.data.reverse := fun hh => hpost (List.mem_reverse.mp hh)
    have hfr : idxOfFirst ']' (pre ++ lst ++ post).data.reverse = some post.data.length := by
      rw [hrevdata, idxOfFirst_append_of_not_mem _ _ _ hpost', hr, List.cons_append,
        idxOfFirst_cons_self]
      simp
    rw [idxOfLast, hfr]
    simp only [Option.map_some', Option.some.injEq]
    have hlens : (pre ++ lst ++ post).data.length =
        pre.data.length + (lst.data.length + post.data.length) := by
      rw [hdata]
      simp
    rw [hlens]
    omega
  simp only [bracketSpan]
  rw [hfirst, hlastidx]
  have hlt : pre.data.length < pre.data.length + lst.data.length - 1 := by omega
  dsimp only
  rw [if_pos hlt]
  refine congrArg some ?_
  have harith : pre.data.length + lst.data.length - 1 - pre.data.length + 1 =
      lst.data.length := by omega
  rw [hdata, harith, List.drop_left, List.take_left]

/-- C7 (amended): recovery stage 1 returns exactly the embedded list's
entries for raw text of the form `pre ++ lst ++ post` where `lst` is a valid
JSON list beginning with its `[` and ending with its `]`, the prose prefix
contains no `[`, and the prose suffix contains no `]`.  (The unrestricted
claim — any text containing a valid JSON-list substring — is refuted by
`c7_counterexample`: a stray `]` later in the prose widens the greedy span
past the list and the span no longer parses.) -/
theorem c7_stage1_extracts_embedded_list (pre lst post : String) (entries : List Json)
    (hpre : '[' ∉ pre.data) (hpost : ']' ∉ post.data)
    (hhead : lst.data.head? = some '[') (hlast : lst.data.getLast? = some ']')
    (hparse : parseJson lst = some (Json.arr entries)) :
    stage1 (pre ++ lst ++ post) = some entries := by
  simp only [stage1]
  rw [bracketSpan_of_decomp pre lst post hpre hpost hhead hlast]
  dsimp only
  rw [hparse]

/-- C7 witness: `["a"]` embedded in bracket-free prose is extracted exactly. -/
theorem c7_witness :
    stage1 ("Here: " ++ "[\"a\"]" ++ " done.") = some [Json.str "a"] :=
  c7_stage1_extracts_embedded_list "Here: " "[\"a\"]" " done." [Json.str "a"]
    (by decide) (by decide) rfl rfl rfl

/-- C7 counterexample: `x ["a"] y]` contains the valid JSON-list substring
`["a"]`, but the greedy span from the first `[` to the last `]` is
`["a"] y]`, which does not parse, so stage 1 yields nothing at all — it does
not return the embedded list's entries. -/
theorem c7_counterexample :
    parseJson "[\"a\"]" = some (Json.arr [Json.str "a"]) ∧
    pyInStr "[\"a\"]" "x [\"a\"] y]" = true ∧
    stage1 "x [\"a\"] y]" = none :=
  ⟨rfl, rfl, rfl⟩

theorem dumpDoc_poster_decomp (d : ItemDoc) :
    ∃ a b, (dumpDoc d).data = a ++ ("\"poster\": " ++ dumpPoster d.poster).data ++ b := by
  refine ⟨("\x7b\"id\": " ++ toString d.id ++ ", \"title\": " ++ dumpStr d.title ++
    ", \"genres\": " ++ dumpStr d.genres ++ ", \"overview\": " ++ dumpStr d.overview ++
    ", ").data, ("\x7d" : String).data, ?_⟩
  simp only [dumpDoc, String.data_append, List.append_assoc, List.cons_append,
    List.nil_append]

theorem dumpDoc_id_decomp (d : ItemDoc) :
    ∃ a b, (dumpDoc d).data = a ++ ("\"id\": " ++ toString d.id).data ++ b := by
  refine ⟨("\x7b" : String).data, (", \"title\": " ++ dumpStr d.title ++ ", \"genres\": " ++
    dumpStr d.genres ++ ", \"overview\": " ++ dumpStr d.overview ++ ", \"poster\": " ++
    dumpPoster d.poster ++ "\x7d").data, ?_⟩
  simp only [dumpDoc, String.data_append, List.append_assoc, List.cons_append,
    List.nil_append]

/-- Any contiguous piece of a retrieved candidate's serialized dict is a
substring of the rendered user message. -/
theorem userMessage_contains_doc_field (q : String) (docs : List ItemDoc) (d : ItemDoc)
    (hd : d ∈ docs) (needle : String)
    (hneedle : ∃ a b, (dumpDoc d).data = a ++ needle.data ++ b) :
    pyInStr needle (userMessage q docs) = true := by
  obtain ⟨a2, b2, h2⟩ := hneedle
  obtain ⟨a1, b1, h1⟩ := joinComma_decomp (docs.map dumpDoc) (dumpDoc d)
    (List.mem_map_of_mem dumpDoc hd)
  rw [h2] at h1
  simp only [pyInStr]
  apply containsL_of_decomp _ _
    (("USER CONTEXT (free text):\n" : String).data ++ q.data ++
      ("\n\nCANDIDATE MOVIES (JSON list of dicts):\n" : String).data ++
      ("[" : String).data ++ a1 ++ a2)
    (b2 ++ b1 ++ ("]" : String).data ++
      ("\n\nReturn JSON:\n[\n  \x7b\"title\": \"...\", \"reason\": \"...\"\x7d,\n  ...\n]" :
        String).data)
  simp only [userMessage, dumpDocs, String.data_append, List.append_assoc, h1]

/-- C3 (amended): the user message handed to the generative model embeds the
full `json.dumps` of every retrieved candidate's metadata dict — including
its `poster` field and its `id` field — contradicting the claim that those
are excluded from what is sent to the generator. -/
theorem c3_prompt_includes_poster_and_id (q : String) (docs : List ItemDoc) (d : ItemDoc)
    (hd : d ∈ docs) :
    pyInStr ("\"poster\": " ++ dumpPoster d.poster) (userMessage q docs) = true ∧
    pyInStr ("\"id\": " ++ toString d.id) (userMessage q docs) = true :=
  ⟨userMessage_contains_doc_field q docs d hd _ (dumpDoc_poster_decomp d),
    userMessage_contains_doc_field q docs d hd _ (dumpDoc_id_decomp d)⟩

/-- C3 witness: the abstract statement applied to a concrete catalog entry. -/
theorem c3_witness :
    pyInStr ("\"poster\": " ++
        dumpPoster (⟨7, "Toy Story", "g", "o", some "http://x/ts.jpg"⟩ : ItemDoc).poster)
      (userMessage "family movie" [⟨7, "Toy Story", "g", "o", some "http://x/ts.jpg"⟩]) =
      true ∧
    pyInStr ("\"id\": " ++
        toString (⟨7, "Toy Story", "g", "o", some "http://x/ts.jpg"⟩ : ItemDoc).id)
      (userMessage "family movie" [⟨7, "Toy Story", "g", "o", some "http://x/ts.jpg"⟩]) =
      true :=
  c3_prompt_includes_poster_and_id "family movie"
    [⟨7, "Toy Story", "g", "o", some "http://x/ts.jpg"⟩]
    ⟨7, "Toy Story", "g", "o", some "http://x/ts.jpg"⟩ (List.mem_singleton.mpr rfl)

set_option maxRecDepth 20000 in
/-- C3 counterexample: a candidate's poster URL and internal id appear
verbatim in the serialized candidate list inside the user message, refuting
"poster URLs and internal ids never appear". -/
theorem c3_counterexample :
    pyInStr "\"poster\": \"http://x/ts.jpg\""
      (userMessage "family movie" [⟨7, "Toy Story", "g", "o", some "http://x/ts.jpg"⟩]) =
      true ∧
    pyInStr "\"id\": 7"
      (userMessage "family movie" [⟨7, "Toy Story", "g", "o", some "http://x/ts.jpg"⟩]) =
      true :=
  ⟨rfl, rfl⟩

/-- C9: evaluation of the failing input.  A draft whose `title` value is a
list reaches the dict-membership test `title in title_to_poster` *before*
any `str()` coercion (the cast happens only inside the fuzzy loop), and that
membership test hashes the title, raising `TypeError` — so the enricher does
raise on unhashable title types, contradicting the claim that coercion
precedes every comparison. -/
theorem c9_unhashable_title_raises :
    recommend "[\x7b\"title\": []\x7d]" [⟨0, "Toy Story", "g", "o", some "u"⟩] =
      .error "TypeError: unhashable type: list" := rfl

end VibeWatch
